import Mathlib

/-!
Verification development for the client-side candle aggregation pipeline
of the Fin-agents dashboard (`StockChart.tsx`).

The embedding models:
* `Resolution` / `getIntervalSeconds` — the resolution enum and its
  interval lookup (`getIntervalSeconds` in the source);
* `Candle` / `Trade` — the `StockCandle` record and a Finnhub trade tick
  (`{p, v, t}` with `t` in milliseconds);
* `bucketStart` / `tradeBucket` — the bucket computation
  `Math.floor(time / intervalSeconds) * intervalSeconds` where
  `time = trade.t / 1000` (real division, hence the `ℚ` argument);
* `applyTrade` / `processTrades` — the per-trade body of `processTrades`
  (update last candle / append new candle / silently drop stale tick);
* `sortByTime` / `dedupKeepFirst` / `replaceAll` — the sort-and-dedup block
  of `fetchStockData` that seeds the store from fetched history;
* `chartStep` / `runChart` — the fit-to-content state machine formed by the
  `isChartFittedRef` reset effect and the `[data]` render effect;
* `fetchStockData` — the history loader's state transition including its
  error handling (catch-and-log on network error, silent skip on a
  non-array payload).

Prices are a type parameter with a linear order so that both ordinary
(rational) prices and non-finite prices (`WithTop ℚ`, where `⊤` plays the
role of `Infinity`) can be instantiated.
-/

namespace FinAgents

/-- The resolution enum `'1s' | '1' | '5' | '15' | '60' | 'D'`. -/
inductive Resolution where
  | s1 | m1 | m5 | m15 | m60 | D
deriving DecidableEq

/-- `getIntervalSeconds` from the source: interval in seconds for a
given resolution. -/
def getIntervalSeconds : Resolution → ℤ
  | .s1 => 1
  | .m1 => 60
  | .m5 => 5 * 60
  | .m15 => 15 * 60
  | .m60 => 60 * 60
  | .D => 24 * 60 * 60

/-- The `StockCandle` record: `time` is a unix timestamp in seconds,
prices are of type `α`, `volume` is optional. -/
structure Candle (α : Type) where
  time : ℤ
  «open» : α
  high : α
  low : α
  close : α
  volume : Option ℚ
deriving DecidableEq

/-- A Finnhub trade tick: price `p`, volume `v`, timestamp `t` in
milliseconds. -/
structure Trade (α : Type) where
  p : α
  v : ℚ
  t : ℤ
deriving DecidableEq

/-- `Math.floor(time / intervalSeconds) * intervalSeconds` — `time` is a
(real-valued) timestamp in seconds. -/
def bucketStart (time : ℚ) (intervalSeconds : ℤ) : ℤ :=
  ⌊time / (intervalSeconds : ℚ)⌋ * intervalSeconds

/-- The bucket of a trade: the source first computes
`time = trade.t / 1000` (real division of the millisecond timestamp) and
then floors it into its interval bucket. -/
def tradeBucket {α : Type} (trade : Trade α) (intervalSeconds : ℤ) : ℤ :=
  bucketStart ((trade.t : ℚ) / 1000) intervalSeconds

/-- One iteration of the `trades.forEach` body of `processTrades`:
update the last candle in place when the trade falls into its bucket,
append a fresh candle when the bucket is strictly newer, silently drop
the trade when its bucket is older than the last candle. -/
def applyTrade {α : Type} [LinearOrder α] (store : List (Candle α))
    (trade : Trade α) (intervalSeconds : ℤ) : List (Candle α) :=
  let price := trade.p
  let volume := trade.v
  let candleTime := tradeBucket trade intervalSeconds
  match store.getLast? with
  | some lastCandle =>
      if lastCandle.time = candleTime then
        store.dropLast ++ [{ lastCandle with
          high := max lastCandle.high price,
          low := min lastCandle.low price,
          close := price,
          volume := some (lastCandle.volume.getD 0 + volume) }]
      else if candleTime > lastCandle.time then
        store ++ [{ time := candleTime, «open» := price, high := price,
                    low := price, close := price, volume := some volume }]
      else
        store
  | none =>
      store ++ [{ time := candleTime, «open» := price, high := price,
                  low := price, close := price, volume := some volume }]

/-- `processTrades` applied to a whole socket batch: fold `applyTrade`
over the trades in arrival order, with the interval taken from the
currently selected resolution. -/
def processTrades {α : Type} [LinearOrder α] (store : List (Candle α))
    (trades : List (Trade α)) (res : Resolution) : List (Candle α) :=
  trades.foldl (fun s tr => applyTrade s tr (getIntervalSeconds res)) store

/-- The sort step of `fetchStockData`:
`response.data.sort((a, b) => a.time - b.time)` — a stable sort ascending
by `time`, modelled by Mathlib's stable `insertionSort`. -/
def sortByTime {α : Type} (l : List (Candle α)) : List (Candle α) :=
  List.insertionSort (fun a b => a.time ≤ b.time) l

/-- The dedup loop of `fetchStockData`: walk the sorted list, keep a
candle only when its `time` has not been seen yet (`times` set). -/
def dedupKeepFirst {α : Type} : List ℤ → List (Candle α) → List (Candle α)
  | _, [] => []
  | seen, c :: rest =>
      if c.time ∈ seen then dedupKeepFirst seen rest
      else c :: dedupKeepFirst (c.time :: seen) rest

/-- The whole seeding transformation of `fetchStockData` (the spec's
`replaceAll`): sort ascending by time, then dedup by `time`. -/
def replaceAll {α : Type} (l : List (Candle α)) : List (Candle α) :=
  dedupKeepFirst [] (sortByTime l)

/-! ### Chart-session fit-to-content state machine

The component keeps `isChartFittedRef` (a boolean ref). The effect with
dependency `[symbol]` resets the flag and clears the data; the effect with
dependency `[data]` calls `setData` and, when the data is non-empty and
the flag is still unset, performs one `fitContent()` and sets the flag.
`processTrades` only ever calls `series.update(...)`, never
`fitContent()`. No effect resets the flag on a resolution change (the
resolution only re-triggers the history fetch). -/

/-- The chart-session state relevant to fit-to-content: the
`isChartFittedRef` flag and the current `data`. -/
structure ChartState where
  fitted : Bool
  data : List (Candle ℚ)
deriving DecidableEq

/-- Events acting on the chart session: the `[symbol]` reset effect, a
resolution change, a run of the `[data]` render effect, and a
`series.update` call issued by `processTrades`. -/
inductive ChartEvent where
  | symbolChange
  | resolutionChange
  | dataRender (d : List (Candle ℚ))
  | lastCandleUpdate (c : Candle ℚ)
deriving DecidableEq

/-- One event step; the second component counts the `fitContent()` calls
the step performs (0 or 1). -/
def chartStep : ChartState → ChartEvent → ChartState × Nat
  | _, .symbolChange => ({ fitted := false, data := [] }, 0)
  | s, .resolutionChange => (s, 0)
  | s, .dataRender d =>
      if d ≠ [] ∧ s.fitted = false then ({ fitted := true, data := d }, 1)
      else ({ s with data := d }, 0)
  | s, .lastCandleUpdate _ => (s, 0)

/-- Run a sequence of events; the second component is the total number of
`fitContent()` calls performed. -/
def runChart : ChartState → List ChartEvent → ChartState × Nat
  | s, [] => (s, 0)
  | s, e :: rest =>
      let p := chartStep s e
      let q := runChart p.1 rest
      (q.1, p.2 + q.2)

/-! ### History-loader state transition -/

/-- The shape of the history endpoint's response body as the source
inspects it: either an array of candles or something that is not an
array (`Array.isArray` fails). -/
inductive HistoryPayload where
  | arr (candles : List (Candle ℚ))
  | notArray
deriving DecidableEq

/-- Outcome of the awaited `axios.get`: a response, or a network/HTTP
error thrown into the `catch` block. -/
inductive FetchOutcome where
  | ok (payload : HistoryPayload)
  | networkError
deriving DecidableEq

/-- The component state `fetchStockData` touches: the candle data and the
`loading` flag. -/
structure LoaderState where
  data : List (Candle ℚ)
  loading : Bool
deriving DecidableEq

/-- The state transition of `fetchStockData`. The boolean result records
whether an error was reported (`console.error` in the `catch` block).
Early returns: no symbol, and the `'1s'` resolution (which clears the
data without fetching). On an array payload the store is seeded via
sort + dedup; on a non-array payload nothing happens (silently); on a
network error the `catch` logs and the store is untouched. `loading` is
cleared in `finally`. -/
def fetchStockData (hasSymbol : Bool) (st : LoaderState) (res : Resolution)
    (outcome : FetchOutcome) : LoaderState × Bool :=
  if hasSymbol = false then (st, false)
  else if res = .s1 then ({ data := [], loading := st.loading }, false)
  else
    match outcome with
    | .ok (.arr l) => ({ data := replaceAll l, loading := false }, false)
    | .ok .notArray => ({ data := st.data, loading := false }, false)
    | .networkError => ({ data := st.data, loading := false }, true)

/-- The CandleStore invariant: times strictly increasing along the
sequence. -/
def timesStrictMono {α : Type} (l : List (Candle α)) : Prop :=
  l.Pairwise (fun a b => a.time < b.time)

instance {α : Type} (l : List (Candle α)) : Decidable (timesStrictMono l) :=
  List.instDecidablePairwise l

/-! ### Case equations for `applyTrade` -/

/-- On an empty store the trade always opens a fresh candle. -/
lemma applyTrade_nil {α : Type} [LinearOrder α] (trade : Trade α) (i : ℤ) :
    applyTrade [] trade i =
      [{ time := tradeBucket trade i, «open» := trade.p, high := trade.p,
         low := trade.p, close := trade.p, volume := some trade.v }] := by
  simp [applyTrade]

/-- Update branch: the trade's bucket equals the last candle's time. -/
lemma applyTrade_concat_update {α : Type} [LinearOrder α]
    (init : List (Candle α)) (last : Candle α) (trade : Trade α) (i : ℤ)
    (h : last.time = tradeBucket trade i) :
    applyTrade (init ++ [last]) trade i =
      init ++ [{ last with
        high := max last.high trade.p, low := min last.low trade.p,
        close := trade.p, volume := some (last.volume.getD 0 + trade.v) }] := by
  simp [applyTrade, h]

/-- Append branch: the trade's bucket is strictly newer than the last
candle's time. -/
lemma applyTrade_concat_append {α : Type} [LinearOrder α]
    (init : List (Candle α)) (last : Candle α) (trade : Trade α) (i : ℤ)
    (h : last.time < tradeBucket trade i) :
    applyTrade (init ++ [last]) trade i =
      (init ++ [last]) ++
        [{ time := tradeBucket trade i, «open» := trade.p, high := trade.p,
           low := trade.p, close := trade.p, volume := some trade.v }] := by
  simp [applyTrade, h, h.ne, h.not_lt]

/-- Discard branch: the trade's bucket is strictly older than the last
candle's time. -/
lemma applyTrade_concat_stale {α : Type} [LinearOrder α]
    (init : List (Candle α)) (last : Candle α) (trade : Trade α) (i : ℤ)
    (h : tradeBucket trade i < last.time) :
    applyTrade (init ++ [last]) trade i = init ++ [last] := by
  simp [applyTrade, h.ne', h.not_lt]

/-! ### Claim theorems -/

/-- Claim C7: for every timestamp `t` (seconds) and every interval
produced by `getIntervalSeconds` (i.e. `i ∈ {1, 60, 300, 900, 3600,
86400}`), the computed bucket start satisfies
`bucketStart t i ≤ t < bucketStart t i + i`, and `bucketStart` is
idempotent. -/
theorem bucketStart_bounds_and_idem (t : ℚ) (i : ℤ)
    (h : ∃ r : Resolution, getIntervalSeconds r = i) :
    ((bucketStart t i : ℤ) : ℚ) ≤ t ∧
    t < ((bucketStart t i : ℤ) : ℚ) + (i : ℚ) ∧
    bucketStart ((bucketStart t i : ℤ) : ℚ) i = bucketStart t i := by
  have hi : (0 : ℤ) < i := by
    obtain ⟨r, rfl⟩ := h
    cases r <;> norm_num [getIntervalSeconds]
  have hq : (0 : ℚ) < (i : ℚ) := by exact_mod_cast hi
  have hne : (i : ℚ) ≠ 0 := ne_of_gt hq
  refine ⟨?_, ?_, ?_⟩
  · unfold bucketStart
    push_cast
    calc (⌊t / (i : ℚ)⌋ : ℚ) * (i : ℚ)
        ≤ (t / (i : ℚ)) * (i : ℚ) :=
          mul_le_mul_of_nonneg_right (Int.floor_le _) hq.le
      _ = t := div_mul_cancel₀ t hne
  · unfold bucketStart
    push_cast
    have h1 : t / (i : ℚ) < (⌊t / (i : ℚ)⌋ : ℚ) + 1 := Int.lt_floor_add_one _
    have h2 : t = (t / (i : ℚ)) * (i : ℚ) := (div_mul_cancel₀ t hne).symm
    calc t = (t / (i : ℚ)) * (i : ℚ) := h2
      _ < ((⌊t / (i : ℚ)⌋ : ℚ) + 1) * (i : ℚ) :=
          mul_lt_mul_of_pos_right h1 hq
      _ = (⌊t / (i : ℚ)⌋ : ℚ) * (i : ℚ) + (i : ℚ) := by ring
  · unfold bucketStart
    have h3 : ((((⌊t / (i : ℚ)⌋ * i : ℤ)) : ℚ)) / (i : ℚ)
        = ((⌊t / (i : ℚ)⌋ : ℤ) : ℚ) := by
      push_cast
      exact mul_div_cancel_right₀ _ hne
    rw [h3, Int.floor_intCast]

/-- Witness for C7 at `t = 125` seconds, `i = 60` (the 1-minute
resolution): the bucket is `120`. -/
theorem bucketStart_bounds_and_idem_witness :
    ((bucketStart 125 60 : ℤ) : ℚ) ≤ 125 ∧
    (125 : ℚ) < ((bucketStart 125 60 : ℤ) : ℚ) + (60 : ℚ) ∧
    bucketStart ((bucketStart 125 60 : ℤ) : ℚ) 60 = bucketStart 125 60 :=
  bucketStart_bounds_and_idem 125 60 ⟨Resolution.m1, rfl⟩

/-- Claim C4: a trade whose bucket is strictly greater than the last
candle's time (or hitting an empty store) appends exactly one candle,
whose time is the bucket start, whose OHLC all equal the trade price,
and whose volume is the trade's volume. -/
theorem applyTrade_append_case {α : Type} [LinearOrder α]
    (store : List (Candle α)) (trade : Trade α) (i : ℤ)
    (h : ∀ last, store.getLast? = some last → last.time < tradeBucket trade i) :
    (applyTrade store trade i).length = store.length + 1 ∧
    applyTrade store trade i = store ++
      [{ time := tradeBucket trade i, «open» := trade.p, high := trade.p,
         low := trade.p, close := trade.p, volume := some trade.v }] := by
  rcases List.eq_nil_or_concat store with rfl | ⟨init, last, rfl⟩
  · exact ⟨by simp [applyTrade_nil], applyTrade_nil trade i⟩
  · rw [List.concat_eq_append] at h ⊢
    have hlt : last.time < tradeBucket trade i :=
      h last (by simp)
    rw [applyTrade_concat_append init last trade i hlt]
    simp

/-- Witness for C4: an empty store plus a trade at millisecond timestamp
`1020000` with price `100` and volume `5` at resolution width `60`
produces the single candle at bucket `1020`. -/
theorem applyTrade_append_case_witness :
    (applyTrade ([] : List (Candle ℚ)) ⟨100, 5, 1020000⟩ 60).length = 0 + 1 ∧
    applyTrade ([] : List (Candle ℚ)) ⟨100, 5, 1020000⟩ 60 = [] ++
      [{ time := tradeBucket (⟨100, 5, 1020000⟩ : Trade ℚ) 60, «open» := 100,
         high := 100, low := 100, close := 100, volume := some 5 }] := by
  have := applyTrade_append_case ([] : List (Candle ℚ)) ⟨100, 5, 1020000⟩ 60
    (fun last hlast => by simp at hlast)
  simpa using this

/-- Claim C5: a trade whose bucket is strictly older than the last
candle's time leaves the store completely unchanged. -/
theorem applyTrade_stale_case {α : Type} [LinearOrder α]
    (store : List (Candle α)) (trade : Trade α) (i : ℤ) (last : Candle α)
    (hlast : store.getLast? = some last)
    (hb : tradeBucket trade i < last.time) :
    applyTrade store trade i = store := by
  rcases List.eq_nil_or_concat store with rfl | ⟨init, a, rfl⟩
  · simp at hlast
  · rw [List.concat_eq_append] at hlast ⊢
    have ha : a = last := by simpa using hlast
    subst ha
    exact applyTrade_concat_stale init a trade i hb

/-- Witness for C5: a store whose last candle sits at bucket `1080`
ignores a trade from bucket `1020`. -/
theorem applyTrade_stale_case_witness :
    applyTrade [({ time := 1080, «open» := 1, high := 2, low := 1, close := 2,
                   volume := some 1 } : Candle ℚ)] ⟨100, 5, 1020000⟩ 60 =
      [({ time := 1080, «open» := 1, high := 2, low := 1, close := 2,
          volume := some 1 } : Candle ℚ)] :=
  applyTrade_stale_case _ ⟨100, 5, 1020000⟩ 60
    { time := 1080, «open» := 1, high := 2, low := 1, close := 2,
      volume := some 1 }
    (by rfl) (by norm_num [tradeBucket, bucketStart])

/-- Claim C3: a trade whose bucket equals the last candle's time leaves
the store's length unchanged and modifies only the last candle, with
`high = max(high, price)`, `low = min(low, price)`, `close = price`,
`volume += trade.v` and `open` unchanged; the OHLC box invariant is
preserved. -/
theorem applyTrade_update_case {α : Type} [LinearOrder α]
    (store : List (Candle α)) (trade : Trade α) (i : ℤ) (last : Candle α)
    (w : ℚ)
    (hlast : store.getLast? = some last)
    (hb : tradeBucket trade i = last.time)
    (hvol : last.volume = some w) :
    (applyTrade store trade i).length = store.length ∧
    (applyTrade store trade i).dropLast = store.dropLast ∧
    (applyTrade store trade i).getLast? = some
      { time := last.time, «open» := last.«open»,
        high := max last.high trade.p, low := min last.low trade.p,
        close := trade.p, volume := some (w + trade.v) } ∧
    (∀ c, (applyTrade store trade i).getLast? = some c →
      (last.low ≤ last.close ∧ last.close ≤ last.high ∧
       last.low ≤ last.«open» ∧ last.«open» ≤ last.high) →
      (c.low ≤ c.close ∧ c.close ≤ c.high ∧
       c.low ≤ c.«open» ∧ c.«open» ≤ c.high)) := by
  rcases List.eq_nil_or_concat store with rfl | ⟨init, a, rfl⟩
  · simp at hlast
  · rw [List.concat_eq_append] at hlast ⊢
    have ha : a = last := by simpa using hlast
    subst ha
    rw [applyTrade_concat_update init a trade i hb.symm, hvol]
    refine ⟨by simp, by simp, by simp, ?_⟩
    intro c hc hinv
    have hc' : { a with high := max a.high trade.p, low := min a.low trade.p,
                        close := trade.p, volume := some (w + trade.v) } = c := by
      simpa using hc
    subst hc'
    refine ⟨min_le_right _ _, le_max_right _ _, ?_, ?_⟩
    · exact le_trans (min_le_left _ _) hinv.2.2.1
    · exact le_trans hinv.2.2.2 (le_max_left _ _)

/-- Witness for C3: the store holds one candle at bucket `1020`
(OHLC `100/100/100/100`, volume `5`); a trade at price `105`, volume `5`
in the same bucket updates it. -/
theorem applyTrade_update_case_witness :
    (applyTrade [({ time := 1020, «open» := 100, high := 100, low := 100,
                    close := 100, volume := some 5 } : Candle ℚ)]
        ⟨105, 5, 1020000⟩ 60).length = 1 ∧
    (applyTrade [({ time := 1020, «open» := 100, high := 100, low := 100,
                    close := 100, volume := some 5 } : Candle ℚ)]
        ⟨105, 5, 1020000⟩ 60).dropLast = [] ∧
    (applyTrade [({ time := 1020, «open» := 100, high := 100, low := 100,
                    close := 100, volume := some 5 } : Candle ℚ)]
        ⟨105, 5, 1020000⟩ 60).getLast? = some
      { time := 1020, «open» := 100, high := max 100 105, low := min 100 105,
        close := 105, volume := some (5 + 5) } := by
  have h := applyTrade_update_case
    [({ time := 1020, «open» := 100, high := 100, low := 100,
        close := 100, volume := some 5 } : Candle ℚ)]
    ⟨105, 5, 1020000⟩ 60
    { time := 1020, «open» := 100, high := 100, low := 100,
      close := 100, volume := some 5 } 5
    (by rfl) (by norm_num [tradeBucket, bucketStart]) (by rfl)
  exact ⟨h.1, by simpa using h.2.1, h.2.2.1⟩

/-- Claim C10: when the last candle has no `volume` value, the update
treats it as `0` (`lastCandle.volume || 0`), so the updated candle's
volume is exactly the trade's volume; and after any update the last
candle always carries a defined volume. -/
theorem applyTrade_update_missing_volume {α : Type} [LinearOrder α]
    (store : List (Candle α)) (trade : Trade α) (i : ℤ) (last : Candle α)
    (hlast : store.getLast? = some last)
    (hb : tradeBucket trade i = last.time) :
    (last.volume = none →
      ∃ c, (applyTrade store trade i).getLast? = some c ∧
        c.volume = some trade.v) ∧
    (∃ c, (applyTrade store trade i).getLast? = some c ∧ c.volume.isSome) := by
  rcases List.eq_nil_or_concat store with rfl | ⟨init, a, rfl⟩
  · simp at hlast
  · rw [List.concat_eq_append] at hlast ⊢
    have ha : a = last := by simpa using hlast
    subst ha
    rw [applyTrade_concat_update init a trade i hb.symm]
    constructor
    · intro hnone
      refine ⟨{ a with high := max a.high trade.p, low := min a.low trade.p,
                       close := trade.p,
                       volume := some (a.volume.getD 0 + trade.v) },
        by simp, by simp [hnone]⟩
    · refine ⟨{ a with high := max a.high trade.p, low := min a.low trade.p,
                       close := trade.p,
                       volume := some (a.volume.getD 0 + trade.v) },
        by simp, by simp⟩

/-- Witness for C10: a history-seeded candle without volume at bucket
`1020` receives a trade of volume `5`; the updated candle's volume is
`some 5`. -/
theorem applyTrade_update_missing_volume_witness :
    (({ time := 1020, «open» := 100, high := 100, low := 100, close := 100, volume := none } : Candle ℚ).volume = none →
      ∃ c, (applyTrade [({ time := 1020, «open» := 100, high := 100, low := 100, close := 100, volume := none } : Candle ℚ)]
          ⟨105, 5, 1020000⟩ 60).getLast? = some c ∧
        c.volume = some (5 : ℚ)) ∧
    (∃ c, (applyTrade [({ time := 1020, «open» := 100, high := 100, low := 100, close := 100, volume := none } : Candle ℚ)]
        ⟨105, 5, 1020000⟩ 60).getLast? = some c ∧ c.volume.isSome) :=
  applyTrade_update_missing_volume
    [({ time := 1020, «open» := 100, high := 100, low := 100,
        close := 100, volume := none } : Candle ℚ)]
    ⟨105, 5, 1020000⟩ 60
    { time := 1020, «open» := 100, high := 100, low := 100,
      close := 100, volume := none }
    (by rfl) (by norm_num [tradeBucket, bucketStart])

/-! ### Sort/dedup lemmas for the store invariant -/

lemma sortByTime_sorted {α : Type} (l : List (Candle α)) :
    (sortByTime l).Pairwise (fun a b : Candle α => a.time ≤ b.time) := by
  haveI : IsTotal (Candle α) (fun a b : Candle α => a.time ≤ b.time) :=
    ⟨fun a b => le_total a.time b.time⟩
  haveI : IsTrans (Candle α) (fun a b : Candle α => a.time ≤ b.time) :=
    ⟨fun _ _ _ hab hbc => le_trans hab hbc⟩
  exact List.sorted_insertionSort _ l

lemma dedupKeepFirst_sublist {α : Type} :
    ∀ (seen : List ℤ) (l : List (Candle α)), List.Sublist (dedupKeepFirst seen l) l
  | _, [] => by simp [dedupKeepFirst]
  | seen, c :: rest => by
      by_cases h : c.time ∈ seen
      · simp only [dedupKeepFirst, if_pos h]
        exact (dedupKeepFirst_sublist seen rest).cons c
      · simp only [dedupKeepFirst, if_neg h]
        exact (dedupKeepFirst_sublist (c.time :: seen) rest).cons₂ c

lemma dedupKeepFirst_nodup {α : Type} :
    ∀ (seen : List ℤ) (l : List (Candle α)),
      ((dedupKeepFirst seen l).map Candle.time).Nodup ∧
      ∀ c ∈ dedupKeepFirst seen l, c.time ∉ seen
  | _, [] => by simp [dedupKeepFirst]
  | seen, c :: rest => by
      by_cases h : c.time ∈ seen
      · simp only [dedupKeepFirst, if_pos h]
        exact dedupKeepFirst_nodup seen rest
      · simp only [dedupKeepFirst, if_neg h]
        obtain ⟨hnd, hseen⟩ := dedupKeepFirst_nodup (c.time :: seen) rest
        refine ⟨List.Nodup.cons ?_ hnd, ?_⟩
        · intro hmem
          obtain ⟨d, hd, hdt⟩ := List.mem_map.mp hmem
          exact (hseen d hd) (hdt ▸ List.mem_cons_self _ _)
        · intro d hd
          rcases List.mem_cons.mp hd with rfl | hd'
          · exact h
          · exact fun hm => (hseen d hd') (List.mem_cons_of_mem _ hm)

lemma pairwise_lt_of_le_nodup {α : Type} {l : List (Candle α)}
    (hle : l.Pairwise (fun a b : Candle α => a.time ≤ b.time))
    (hnd : (l.map Candle.time).Nodup) : timesStrictMono l := by
  have hne : l.Pairwise (fun a b : Candle α => a.time ≠ b.time) :=
    List.pairwise_map.mp hnd
  exact (hle.and hne).imp fun h => lt_of_le_of_ne h.1 h.2

lemma replaceAll_strictMono {α : Type} (l : List (Candle α)) :
    timesStrictMono (replaceAll l) := by
  have hle : (replaceAll l).Pairwise (fun a b : Candle α => a.time ≤ b.time) :=
    (sortByTime_sorted l).sublist (dedupKeepFirst_sublist [] (sortByTime l))
  exact pairwise_lt_of_le_nodup hle
    (dedupKeepFirst_nodup [] (sortByTime l)).1

lemma applyTrade_strictMono {α : Type} [LinearOrder α]
    (store : List (Candle α)) (trade : Trade α) (i : ℤ)
    (h : timesStrictMono store) : timesStrictMono (applyTrade store trade i) := by
  rcases List.eq_nil_or_concat store with rfl | ⟨init, last, rfl⟩
  · rw [applyTrade_nil]
    exact List.pairwise_singleton _ _
  · rw [List.concat_eq_append] at h ⊢
    rcases lt_trichotomy (tradeBucket trade i) last.time with hlt | heq | hgt
    · rwa [applyTrade_concat_stale init last trade i hlt]
    · rw [applyTrade_concat_update init last trade i heq.symm]
      have h' : List.Pairwise (fun a b : Candle α => a.time < b.time)
          (init ++ [last]) := h
      rw [List.pairwise_append] at h'
      obtain ⟨h1, _, h3⟩ := h'
      show List.Pairwise (fun a b : Candle α => a.time < b.time) _
      rw [List.pairwise_append]
      refine ⟨h1, List.pairwise_singleton _ _, ?_⟩
      intro a ha b hb
      have hb' : b.time = last.time := by
        rcases List.mem_singleton.mp hb with rfl
        rfl
      rw [hb']
      exact h3 a ha last (List.mem_singleton.mpr rfl)
    · rw [applyTrade_concat_append init last trade i hgt]
      have h' : List.Pairwise (fun a b : Candle α => a.time < b.time)
          (init ++ [last]) := h
      show List.Pairwise (fun a b : Candle α => a.time < b.time) _
      rw [List.pairwise_append]
      refine ⟨h', List.pairwise_singleton _ _, ?_⟩
      intro a ha b hb
      have hb' : b.time = tradeBucket trade i := by
        rcases List.mem_singleton.mp hb with rfl
        rfl
      rw [hb']
      rcases List.mem_append.mp ha with ha' | ha''
      · have hal : a.time < last.time := by
          rw [List.pairwise_append] at h'
          exact h'.2.2 a ha' last (List.mem_singleton.mpr rfl)
        exact lt_trans hal hgt
      · rcases List.mem_singleton.mp ha'' with rfl
        exact hgt

/-- Claim C6: the CandleStore invariant (strictly increasing candle
times, hence no duplicate times) holds after the bulk replace
(`replaceAll`, i.e. the sort + dedup block of `fetchStockData`) for any
input, and is preserved by `applyTrade` in all three cases (update,
append, discard). -/
theorem candleStore_invariant (α : Type) [LinearOrder α] :
    (∀ l : List (Candle α), timesStrictMono (replaceAll l)) ∧
    (∀ (store : List (Candle α)) (trade : Trade α) (i : ℤ),
      timesStrictMono store → timesStrictMono (applyTrade store trade i)) :=
  ⟨replaceAll_strictMono, applyTrade_strictMono⟩

/-- Witness for C6: the invariant holds after seeding from an unordered
history with a duplicated timestamp, and is preserved by a live trade on
a concrete singleton store. -/
theorem candleStore_invariant_witness :
    timesStrictMono (replaceAll
      [(⟨1000, 2, 2, 2, 2, none⟩ : Candle ℚ), ⟨900, 1, 1, 1, 1, none⟩,
       ⟨1000, 3, 3, 3, 3, none⟩]) ∧
    timesStrictMono (applyTrade [(⟨1020, 1, 1, 1, 1, none⟩ : Candle ℚ)]
      ⟨2, 1, 1080000⟩ 60) :=
  ⟨(candleStore_invariant ℚ).1 _,
   (candleStore_invariant ℚ).2 _ ⟨2, 1, 1080000⟩ 60 (by decide)⟩

/-! ### Dedup keeps the first occurrence -/

lemma dedupKeepFirst_find? {α : Type} :
    ∀ (seen : List ℤ) (l : List (Candle α)) (t : ℤ), t ∉ seen →
      (dedupKeepFirst seen l).find? (fun c => c.time = t) =
        l.find? (fun c => c.time = t)
  | _, [], _, _ => rfl
  | seen, c :: rest, t, ht => by
      by_cases h : c.time ∈ seen
      · have hct : c.time ≠ t := fun hh => ht (hh ▸ h)
        simp only [dedupKeepFirst, if_pos h]
        rw [dedupKeepFirst_find? seen rest t ht,
          List.find?_cons_of_neg _ (by simp [hct])]
      · by_cases hct : c.time = t
        · simp only [dedupKeepFirst, if_neg h]
          rw [List.find?_cons_of_pos _ (by simp [hct]),
            List.find?_cons_of_pos _ (by simp [hct])]
        · simp only [dedupKeepFirst, if_neg h]
          rw [List.find?_cons_of_neg _ (by simp [hct]),
            List.find?_cons_of_neg _ (by simp [hct])]
          refine dedupKeepFirst_find? (c.time :: seen) rest t ?_
          intro hmem
          rcases List.mem_cons.mp hmem with h1 | h2
          · exact hct h1.symm
          · exact ht h2

/-- Counterexample to claim C1: two fetched candles share time `1000`;
the dedup of `fetchStockData` keeps the first-seen one (close `1`), not
the last-seen one (close `2`). -/
theorem replaceAll_keeps_first_counterexample :
    replaceAll [(⟨1000, 1, 1, 1, 1, none⟩ : Candle ℚ),
                ⟨1000, 2, 2, 2, 2, none⟩] = [⟨1000, 1, 1, 1, 1, none⟩] ∧
    ¬ (replaceAll [(⟨1000, 1, 1, 1, 1, none⟩ : Candle ℚ),
                   ⟨1000, 2, 2, 2, 2, none⟩] = [⟨1000, 2, 2, 2, 2, none⟩]) := by
  constructor
  · rfl
  · decide

/-- Claim C1 (amended): for every time `t` occurring in the sorted
series, the candle the store keeps at `t` is the first-seen candle with
that time in the sorted sequence (the dedup loop skips later
duplicates). -/
theorem replaceAll_keeps_first {α : Type} (l : List (Candle α)) (t : ℤ)
    (h : t ∈ (sortByTime l).map Candle.time) :
    ((replaceAll l).find? (fun c => c.time = t)).isSome ∧
    (replaceAll l).find? (fun c => c.time = t) =
      (sortByTime l).find? (fun c => c.time = t) := by
  have hfind := dedupKeepFirst_find? [] (sortByTime l) t (by simp)
  constructor
  · rw [replaceAll, hfind, List.find?_isSome]
    obtain ⟨c, hc, hct⟩ := List.mem_map.mp h
    exact ⟨c, hc, by simp [hct]⟩
  · simpa [replaceAll] using hfind

/-- Witness for the amended C1 at the duplicated time `1000`. -/
theorem replaceAll_keeps_first_witness :
    ((replaceAll [(⟨1000, 1, 1, 1, 1, none⟩ : Candle ℚ),
        ⟨1000, 2, 2, 2, 2, none⟩]).find? (fun c => c.time = 1000)).isSome ∧
    (replaceAll [(⟨1000, 1, 1, 1, 1, none⟩ : Candle ℚ),
        ⟨1000, 2, 2, 2, 2, none⟩]).find? (fun c => c.time = 1000) =
      (sortByTime [(⟨1000, 1, 1, 1, 1, none⟩ : Candle ℚ),
        ⟨1000, 2, 2, 2, 2, none⟩]).find? (fun c => c.time = 1000) :=
  replaceAll_keeps_first
    [(⟨1000, 1, 1, 1, 1, none⟩ : Candle ℚ), ⟨1000, 2, 2, 2, 2, none⟩] 1000
    (by decide)

/-! ### Fit-to-content: at most one fit per symbol session -/

lemma runChart_fits_le :
    ∀ (evs : List ChartEvent) (s : ChartState),
      ChartEvent.symbolChange ∉ evs →
      (runChart s evs).2 ≤ (if s.fitted then 0 else 1)
  | [], s, _ => by simp [runChart]
  | e :: rest, s, h => by
      have hrest : ChartEvent.symbolChange ∉ rest :=
        fun hm => h (List.mem_cons_of_mem _ hm)
      have he : e ≠ ChartEvent.symbolChange :=
        fun hh => h (hh ▸ List.mem_cons_self _ _)
      cases e with
      | symbolChange => exact absurd rfl he
      | resolutionChange =>
          simp only [runChart, chartStep]
          simpa using runChart_fits_le rest s hrest
      | lastCandleUpdate c =>
          simp only [runChart, chartStep]
          simpa using runChart_fits_le rest s hrest
      | dataRender d =>
          by_cases hc : d ≠ [] ∧ s.fitted = false
          · simp only [runChart, chartStep, if_pos hc]
            have hth : (runChart ⟨true, d⟩ rest).2 ≤ 0 := by
              simpa using runChart_fits_le rest ⟨true, d⟩ hrest
            simp [hc.2]
            omega
          · simp only [runChart, chartStep, if_neg hc]
            have := runChart_fits_le rest { s with data := d } hrest
            simpa using this

/-- Counterexample to claim C2: after the first non-empty render has
fitted the chart, a resolution change does not reset the fitted flag
(the reset effect only depends on the symbol), so the next non-empty
full render performs no second fit — total fits stay at `1`, where the
claim demands a re-fit. -/
theorem chart_fit_resolution_counterexample :
    (runChart ⟨false, []⟩
      [ChartEvent.dataRender [⟨1020, 1, 1, 1, 1, none⟩],
       ChartEvent.resolutionChange,
       ChartEvent.dataRender [⟨1020, 1, 1, 1, 1, none⟩]]).2 = 1 ∧
    (chartStep ⟨true, []⟩ ChartEvent.resolutionChange).1.fitted = true := by
  constructor
  · rfl
  · rfl

/-- Claim C2 (amended): per chart session, the first full render with
non-empty data fits exactly once and sets the fitted flag; later full
renders and incremental last-candle updates never fit again; the flag is
reset by a symbol change only — a resolution change leaves the state
(and the flag) untouched; and without a symbol change a session performs
at most one fit in total. -/
theorem chart_fit_once (s : ChartState) (d : List (Candle ℚ))
    (c : Candle ℚ) (evs : List ChartEvent)
    (hd : d ≠ []) (hfit : s.fitted = false)
    (hevs : ChartEvent.symbolChange ∉ evs) :
    (chartStep s ChartEvent.symbolChange).1.fitted = false ∧
    chartStep s ChartEvent.resolutionChange = (s, 0) ∧
    chartStep s (ChartEvent.lastCandleUpdate c) = (s, 0) ∧
    chartStep s (ChartEvent.dataRender d) = (⟨true, d⟩, 1) ∧
    (∀ s' : ChartState, s'.fitted = true →
      chartStep s' (ChartEvent.dataRender d) = (⟨true, d⟩, 0)) ∧
    (runChart ⟨false, []⟩ evs).2 ≤ 1 := by
  refine ⟨rfl, rfl, rfl, ?_, ?_, ?_⟩
  · simp [chartStep, hd, hfit]
  · intro s' hs'
    cases s' with
    | mk f dat =>
        simp only [ChartState.fitted] at hs'
        subst hs'
        simp [chartStep]
  · simpa using runChart_fits_le evs ⟨false, []⟩ hevs

/-- Witness for the amended C2 on a concrete session: one candle of
data, one later update event, no symbol change. -/
theorem chart_fit_once_witness :
    (chartStep ⟨false, []⟩ ChartEvent.symbolChange).1.fitted = false ∧
    chartStep ⟨false, []⟩ ChartEvent.resolutionChange = (⟨false, []⟩, 0) ∧
    chartStep ⟨false, []⟩
      (ChartEvent.lastCandleUpdate ⟨1020, 1, 1, 1, 1, none⟩) = (⟨false, []⟩, 0) ∧
    chartStep ⟨false, []⟩
      (ChartEvent.dataRender [⟨1020, 1, 1, 1, 1, none⟩]) =
      (⟨true, [⟨1020, 1, 1, 1, 1, none⟩]⟩, 1) ∧
    (∀ s' : ChartState, s'.fitted = true →
      chartStep s' (ChartEvent.dataRender [⟨1020, 1, 1, 1, 1, none⟩]) =
        (⟨true, [⟨1020, 1, 1, 1, 1, none⟩]⟩, 0)) ∧
    (runChart ⟨false, []⟩
      [ChartEvent.dataRender [⟨1020, 1, 1, 1, 1, none⟩],
       ChartEvent.resolutionChange,
       ChartEvent.lastCandleUpdate ⟨1020, 1, 1, 1, 2, none⟩]).2 ≤ 1 :=
  chart_fit_once ⟨false, []⟩ [⟨1020, 1, 1, 1, 1, none⟩]
    ⟨1020, 1, 1, 1, 1, none⟩
    [ChartEvent.dataRender [⟨1020, 1, 1, 1, 1, none⟩],
     ChartEvent.resolutionChange,
     ChartEvent.lastCandleUpdate ⟨1020, 1, 1, 1, 2, none⟩]
    (by decide) rfl (by decide)

/-! ### Non-finite prices are not filtered -/

/-- Counterexample to claim C8: `processTrades` never tests the price
for finiteness, so a trade with a non-finite price (`⊤` in `WithTop ℚ`,
playing the role of `Infinity`) whose bucket matches the last candle
mutates that candle instead of being dropped: the store changes. -/
theorem applyTrade_nonfinite_counterexample :
    ¬ (applyTrade [(⟨1020, 1, 1, 1, 1, some 1⟩ : Candle (WithTop ℚ))]
        ⟨⊤, 5, 1020000⟩ 60 = [⟨1020, 1, 1, 1, 1, some 1⟩]) := by
  have hb : tradeBucket (⟨⊤, 5, 1020000⟩ : Trade (WithTop ℚ)) 60 = 1020 := by
    norm_num [tradeBucket, bucketStart]
  have h := applyTrade_concat_update ([] : List (Candle (WithTop ℚ)))
    ⟨1020, 1, 1, 1, 1, some 1⟩ ⟨⊤, 5, 1020000⟩ 60 (by rw [hb])
  rw [List.nil_append] at h
  rw [h]
  decide

/-- Claim C8 (amended): a trade with a non-finite price is not dropped:
when its bucket matches the last candle, the candle is mutated like for
any price — its `close` (and `high`) become the non-finite value — so
the store, while keeping its length, genuinely changes whenever the old
`close` was finite. (Batch application is a total fold and can never
raise to the caller.) -/
theorem applyTrade_nonfinite_applied (store : List (Candle (WithTop ℚ)))
    (trade : Trade (WithTop ℚ)) (i : ℤ) (last : Candle (WithTop ℚ))
    (hlast : store.getLast? = some last)
    (hb : tradeBucket trade i = last.time)
    (hp : trade.p = ⊤) :
    (applyTrade store trade i).length = store.length ∧
    ∃ c, (applyTrade store trade i).getLast? = some c ∧ c.close = ⊤ ∧
      c.high = ⊤ ∧
      (last.close ≠ ⊤ → applyTrade store trade i ≠ store) := by
  rcases List.eq_nil_or_concat store with rfl | ⟨init, a, rfl⟩
  · simp at hlast
  · rw [List.concat_eq_append] at hlast ⊢
    have ha : a = last := by simpa using hlast
    subst ha
    rw [applyTrade_concat_update init a trade i hb.symm]
    refine ⟨by simp, ?_⟩
    refine ⟨{ a with high := max a.high trade.p, low := min a.low trade.p,
                     close := trade.p,
                     volume := some (a.volume.getD 0 + trade.v) },
      by simp, by simp [hp], by simp [hp], ?_⟩
    intro hfin heqs
    have hsingle := List.append_cancel_left heqs
    have hlast' : ({ a with high := max a.high trade.p,
                            low := min a.low trade.p,
                            close := trade.p,
                            volume := some (a.volume.getD 0 + trade.v) } :
        Candle (WithTop ℚ)) = a := by
      simpa using hsingle
    have hcl := congrArg Candle.close hlast'
    simp [hp] at hcl
    exact hfin hcl.symm

/-- Witness for the amended C8: the last candle sits at bucket `1020`
with finite close `1`; an `Infinity`-priced trade in the same bucket is
applied, setting `close = ⊤` and changing the store. -/
theorem applyTrade_nonfinite_applied_witness :
    (applyTrade [(⟨1020, 1, 1, 1, 1, some 1⟩ : Candle (WithTop ℚ))]
      ⟨⊤, 5, 1020000⟩ 60).length =
      [(⟨1020, 1, 1, 1, 1, some 1⟩ : Candle (WithTop ℚ))].length ∧
    ∃ c, (applyTrade [(⟨1020, 1, 1, 1, 1, some 1⟩ : Candle (WithTop ℚ))]
        ⟨⊤, 5, 1020000⟩ 60).getLast? = some c ∧ c.close = ⊤ ∧ c.high = ⊤ ∧
      ((⟨1020, 1, 1, 1, 1, some 1⟩ : Candle (WithTop ℚ)).close ≠ ⊤ →
        applyTrade [(⟨1020, 1, 1, 1, 1, some 1⟩ : Candle (WithTop ℚ))]
          ⟨⊤, 5, 1020000⟩ 60 ≠ [⟨1020, 1, 1, 1, 1, some 1⟩]) :=
  applyTrade_nonfinite_applied _ ⟨⊤, 5, 1020000⟩ 60 ⟨1020, 1, 1, 1, 1, some 1⟩
    (by rfl) (by norm_num [tradeBucket, bucketStart]) (by rfl)

/-! ### Loader failure handling -/

/-- Counterexample to claim C9: a malformed (non-array) payload is
ignored completely silently — the store is indeed untouched, but no
error of any kind is surfaced (the `Array.isArray` guard simply skips;
only the network-error path logs). -/
theorem fetchStockData_malformed_counterexample :
    (fetchStockData true ⟨[⟨900, 1, 1, 1, 1, none⟩], false⟩ Resolution.m1
      (FetchOutcome.ok HistoryPayload.notArray)).1.data =
      [⟨900, 1, 1, 1, 1, none⟩] ∧
    ¬ ((fetchStockData true ⟨[⟨900, 1, 1, 1, 1, none⟩], false⟩ Resolution.m1
      (FetchOutcome.ok HistoryPayload.notArray)).2 = true) := by
  constructor
  · rfl
  · decide

/-- Claim C9 (amended): on any failed fetch — network error or
non-array payload — the loader leaves the stored candle data exactly as
it was and terminates normally (`loading` cleared by `finally`); a
network error is reported via the `catch` logger, while a malformed
payload is silently ignored and surfaces no error at all. -/
theorem fetchStockData_failure (st : LoaderState) (res : Resolution)
    (outcome : FetchOutcome)
    (hres : res ≠ Resolution.s1)
    (hfail : outcome = FetchOutcome.networkError ∨
             outcome = FetchOutcome.ok HistoryPayload.notArray) :
    (fetchStockData true st res outcome).1.data = st.data ∧
    (fetchStockData true st res outcome).1.loading = false ∧
    ((fetchStockData true st res outcome).2 = true ↔
      outcome = FetchOutcome.networkError) := by
  rcases hfail with rfl | rfl <;>
    simp [fetchStockData, hres]

/-- Witness for the amended C9 at a concrete failing fetch (network
error, 1-minute resolution, one stored candle). -/
theorem fetchStockData_failure_witness :
    (fetchStockData true ⟨[⟨900, 1, 1, 1, 1, none⟩], true⟩ Resolution.m1
      FetchOutcome.networkError).1.data = [⟨900, 1, 1, 1, 1, none⟩] ∧
    (fetchStockData true ⟨[⟨900, 1, 1, 1, 1, none⟩], true⟩ Resolution.m1
      FetchOutcome.networkError).1.loading = false ∧
    ((fetchStockData true ⟨[⟨900, 1, 1, 1, 1, none⟩], true⟩ Resolution.m1
      FetchOutcome.networkError).2 = true ↔
      FetchOutcome.networkError = FetchOutcome.networkError) :=
  fetchStockData_failure ⟨[⟨900, 1, 1, 1, 1, none⟩], true⟩ Resolution.m1
    FetchOutcome.networkError (by decide) (Or.inl rfl)

end FinAgents
